import Mathlib

/-!
Verification development for plugdata (PlugData repository).

Shallow embedding of the C++ sources into Lean 4, with theorems settling
the behavioural claims about:

* `SmallArray` capacity growth (`Source/Utility/Containers.h`, `getNewCapacity`);
* `OfflineObjectRenderer::stripConnections` (`Source/Utility/OfflineObjectRenderer.cpp`);
* `DraggableNumber::setValue` / `limitValue` (`Source/Components/DraggableNumber.h`);
* libpd weak-reference guarded accessors (`NumberObject`, `ToggleObject`);
* `ConnectionPathUpdater::pushPathState` (`Source/Connection.h`);
* `Connection::findLatticePaths` (declared in `Source/Connection.h`);
* `PlugDataParameter::saveStateInformation` / `loadStateInformation`
  (`Source/Utility/PluginParameter.h`).

Machine floats are idealised as exact arithmetic: `ℚ` where only ordered-field
operations occur, `ℝ` where the code uses `exp`/`log`/`pow` (skew mapping of
`juce::NormalisableRange`).  `size_t` arithmetic is modelled as `ℕ` with
explicit reduction modulo `2 ^ 64` where the C++ can overflow.
-/

/-! ### SmallArray capacity growth (Source/Utility/Containers.h) -/

namespace Containers

/-- Modulus of C++ `size_t` arithmetic on the 64-bit targets plugdata builds for. -/
def sizeTMod : ℕ := 2 ^ 64

/-- C++ `std::clamp(v, lo, hi)`: `v < lo ? lo : (hi < v ? hi : v)`. -/
def stdClamp (v lo hi : ℕ) : ℕ :=
  if v < lo then lo else if hi < v then hi else v

/-- Embedding of `getNewCapacity<Size_T>(MinSize, TSize, OldCapacity)` from
`Source/Utility/Containers.h` (lines 1624-1645).  `maxSize` is
`std::numeric_limits<Size_T>::max()`.  `report_size_overflow` and
`report_at_maximum_capacity` throw `std::length_error`, modelled as `.error`.
`2 * OldCapacity + 1` is computed in `size_t`, hence the reduction modulo
`sizeTMod`.  (`TSize` is unused by the C++ function body and is omitted.) -/
def getNewCapacity (maxSize minSize oldCapacity : ℕ) : Except String ℕ :=
  if minSize > maxSize then
    .error "SmallArray unable to grow. Requested capacity is larger than maximum value for size type"
  else if oldCapacity = maxSize then
    .error "SmallArray capacity unable to grow. Already at maximum size"
  else
    .ok (stdClamp ((2 * oldCapacity + 1) % sizeTMod) minSize maxSize)

end Containers

/-! ### OfflineObjectRenderer::stripConnections (Source/Utility/OfflineObjectRenderer.cpp) -/

namespace OfflineObjectRenderer

/-- Embedding of `StringArray lines; lines.addTokens(patch, "\n", StringRef())`:
JUCE tokenisation splits on every `'\n'` keeping empty tokens (including a
trailing empty token after a final newline), except that an empty input
produces no tokens at all. -/
def addTokensNewline (s : String) : List String :=
  if s = "" then [] else s.splitOn "\n"

/-- Embedding of the removal loop of `OfflineObjectRenderer::stripConnections`:
`for (int i = lines.size() - 1; i >= 0; --i) if (lines[i].startsWith("#X connect")) lines.remove(i);`
The counter argument is one past the next index to examine, so the loop is
entered with `lines.length` and indices are visited in descending order.
JUCE `StringArray::operator[]` yields the empty string out of range, hence
`getD i ""`. -/
def removeConnectLoop : ℕ → List String → List String
  | 0, lines => lines
  | i + 1, lines =>
      removeConnectLoop i
        (if (lines.getD i "").startsWith "#X connect" then lines.eraseIdx i else lines)

/-- Embedding of `OfflineObjectRenderer::stripConnections(patch)`
(`Source/Utility/OfflineObjectRenderer.cpp`, lines 166-182): tokenise on
newlines, drop every line starting with `"#X connect"` (descending index
loop), then rebuild the string appending `"\n"` after every remaining line. -/
def stripConnections (patch : String) : String :=
  let lines := addTokensNewline patch
  let lines := removeConnectLoop lines.length lines
  lines.foldl (fun acc line => acc ++ line ++ "\n") ""

end OfflineObjectRenderer

/-! ### Claim C4 theorems -/

/-- Claim C4 counterexample: with `Size_T = size_t` (so `maxSize = 2^64 - 1`),
`MinSize = 0` and `OldCapacity = 2^63`, the C++ computes `2 * OldCapacity + 1`
in `size_t`, which wraps to `1`; no exception is thrown, yet the returned
capacity `1` is not `clamp(2 * OldCapacity + 1, MinSize, max)` in exact
arithmetic and is not strictly greater than `OldCapacity`. -/
theorem C4_counterexample :
    Containers.getNewCapacity (2 ^ 64 - 1) 0 (2 ^ 63) = .ok 1
    ∧ Containers.stdClamp (2 * 2 ^ 63 + 1) 0 (2 ^ 64 - 1) = 2 ^ 64 - 1
    ∧ ¬ ((2 : ℕ) ^ 63 < 1) := by
  refine ⟨rfl, rfl, by decide⟩

/-- Claim C4 (amended): provided `OldCapacity` is representable in `Size_T`
(`oldCapacity ≤ maxSize`) and `2 * OldCapacity + 1` does not overflow
`size_t`, `getNewCapacity` throws `std::length_error` if and only if
`MinSize` exceeds the maximum of `Size_T` or `OldCapacity` already equals
that maximum; otherwise it returns `clamp(2 * OldCapacity + 1, MinSize, max)`,
which is at least `MinSize` and strictly greater than `OldCapacity`. -/
theorem C4_getNewCapacity_spec (maxSize minSize oldCapacity : ℕ)
    (hrep : oldCapacity ≤ maxSize) (hnowrap : 2 * oldCapacity + 1 < Containers.sizeTMod) :
    ((∃ e, Containers.getNewCapacity maxSize minSize oldCapacity = .error e) ↔
        minSize > maxSize ∨ oldCapacity = maxSize)
    ∧ (∀ r, Containers.getNewCapacity maxSize minSize oldCapacity = .ok r →
        r = Containers.stdClamp (2 * oldCapacity + 1) minSize maxSize
        ∧ minSize ≤ r ∧ oldCapacity < r) := by
  unfold Containers.getNewCapacity
  rw [Nat.mod_eq_of_lt hnowrap]
  by_cases h1 : minSize > maxSize
  · rw [if_pos h1]
    exact ⟨⟨fun _ => Or.inl h1, fun _ => ⟨_, rfl⟩⟩, fun r hr => by cases hr⟩
  · rw [if_neg h1]
    by_cases h2 : oldCapacity = maxSize
    · rw [if_pos h2]
      exact ⟨⟨fun _ => Or.inr h2, fun _ => ⟨_, rfl⟩⟩, fun r hr => by cases hr⟩
    · rw [if_neg h2]
      refine ⟨⟨?_, fun h => (h.elim h1 h2).elim⟩, fun r hr => ?_⟩
      · rintro ⟨e, he⟩
        cases he
      have hr' : Containers.stdClamp (2 * oldCapacity + 1) minSize maxSize = r :=
        Except.ok.inj hr
      refine ⟨hr'.symm, ?_, ?_⟩ <;>
        · unfold Containers.stdClamp at hr'
          split_ifs at hr' <;> omega

/-- Claim C4 witness: concrete instance `maxSize = 255`, `minSize = 10`,
`oldCapacity = 7`, discharging both hypotheses. -/
theorem C4_witness :
    ((7 : ℕ) ≤ 255 ∧ 2 * 7 + 1 < Containers.sizeTMod)
    ∧ (((∃ e, Containers.getNewCapacity 255 10 7 = .error e) ↔
          10 > 255 ∨ (7 : ℕ) = 255)
    ∧ (∀ r, Containers.getNewCapacity 255 10 7 = .ok r →
        r = Containers.stdClamp (2 * 7 + 1) 10 255 ∧ 10 ≤ r ∧ 7 < r)) :=
  ⟨⟨by decide, by decide⟩, C4_getNewCapacity_spec 255 10 7 (by decide) (by decide)⟩

/-! ### Claim C7 theorems -/

/-- Helper: `String.foldl` of append over a list factors out the accumulator. -/
theorem stringFoldlAppend (l : List String) :
    ∀ acc : String, l.foldl (· ++ ·) acc = acc ++ l.foldl (· ++ ·) "" := by
  induction l with
  | nil => intro acc; simp [String.append_empty]
  | cons b l ih =>
      intro acc
      simp only [List.foldl_cons, String.empty_append]
      rw [ih (acc ++ b), ih b, String.append_assoc]

/-- Helper: `String.join` unfolds on a cons cell. -/
theorem stringJoin_cons (a : String) (l : List String) :
    String.join (a :: l) = a ++ String.join l := by
  simp only [String.join, List.foldl_cons, String.empty_append]
  exact stringFoldlAppend l a

/-- Helper: the descending-index removal loop of `stripConnections` agrees
with filtering out the `"#X connect"` lines among the first `i` entries. -/
theorem removeConnectLoop_eq_filter :
    ∀ (i : ℕ) (lines : List String), i ≤ lines.length →
      OfflineObjectRenderer.removeConnectLoop i lines =
        (lines.take i).filter (fun l => !(l.startsWith "#X connect")) ++ lines.drop i := by
  intro i
  induction i with
  | zero => intro lines _; simp [OfflineObjectRenderer.removeConnectLoop]
  | succ i ih =>
      intro lines hlen
      have hi : i < lines.length := Nat.lt_of_succ_le hlen
      have hgetD : lines.getD i "" = lines[i] := by
        simp [List.getD_eq_getElem?_getD, List.getElem?_eq_getElem hi]
      rw [OfflineObjectRenderer.removeConnectLoop]
      by_cases hP : (lines[i]).startsWith "#X connect"
      · rw [hgetD, if_pos hP]
        have hlen' : i ≤ (lines.eraseIdx i).length := by
          rw [List.length_eraseIdx_of_lt hi]; omega
        rw [ih _ hlen']
        have htake : (lines.eraseIdx i).take i = lines.take i := by
          rw [List.eraseIdx_eq_take_drop_succ]
          exact List.take_left' (by simp [List.length_take]; omega)
        have hdrop : (lines.eraseIdx i).drop i = lines.drop (i + 1) := by
          rw [List.eraseIdx_eq_take_drop_succ]
          exact List.drop_left' (by simp [List.length_take]; omega)
        rw [htake, hdrop]
        have htake' : lines.take (i + 1) = lines.take i ++ [lines[i]] := by
          rw [List.take_succ, List.getElem?_eq_getElem hi]; rfl
        rw [htake', List.filter_append]
        simp [hP]
      · rw [hgetD, if_neg hP]
        rw [ih _ (Nat.le_of_lt hi)]
        have hdrop : lines.drop i = lines[i] :: lines.drop (i + 1) :=
          List.drop_eq_getElem_cons hi
        have htake' : lines.take (i + 1) = lines.take i ++ [lines[i]] := by
          rw [List.take_succ, List.getElem?_eq_getElem hi]; rfl
        rw [hdrop, htake', List.filter_append]
        simp [hP]

/-- Helper: rebuilding the patch text appends `"\n"` after every line. -/
theorem foldlAppendNewline (ls : List String) :
    ∀ acc : String,
      ls.foldl (fun acc line => acc ++ line ++ "\n") acc
        = acc ++ String.join (ls.map (· ++ "\n")) := by
  induction ls with
  | nil => intro acc; simp [String.join, String.append_empty]
  | cons l ls ih =>
      intro acc
      simp only [List.foldl_cons, List.map_cons]
      rw [ih, stringJoin_cons]
      simp [String.append_assoc]

/-- Claim C7: `OfflineObjectRenderer::stripConnections(patch)` returns exactly
the input's newline-separated lines (JUCE tokenisation: split on `'\n'`
keeping empty tokens, no tokens for an empty input) with every line starting
with `"#X connect"` removed, remaining lines in their original order, each
terminated by a single `'\n'`. -/
theorem C7_stripConnections_spec (patch : String) :
    OfflineObjectRenderer.stripConnections patch =
      String.join (((OfflineObjectRenderer.addTokensNewline patch).filter
        (fun l => !(l.startsWith "#X connect"))).map (· ++ "\n")) := by
  simp only [OfflineObjectRenderer.stripConnections]
  rw [removeConnectLoop_eq_filter _ _ (Nat.le_refl _)]
  simp only [List.take_length, List.drop_length, List.append_nil]
  rw [foldlAppendNewline, String.empty_append]

/-! ### DraggableNumber (Source/Components/DraggableNumber.h) -/

namespace DraggableNumber

/-- Observable state of a `DraggableNumber` relevant to `setValue`:
`lastValue` (the stored value returned by `getValue`), the clamp bounds
`min`/`max`, the `isMinLimited`/`isMaxLimited` bit-fields and `wasReset`.
(The label text mirrors `String(lastValue, 8)` and is not modelled
separately; `float` is idealised as `ℚ`.) -/
structure State where
  lastValue : ℚ
  min : ℚ
  max : ℚ
  isMinLimited : Bool
  isMaxLimited : Bool
  wasReset : Bool

/-- Smallest positive normal `float`, `2^-126` (`std::numeric_limits<float>::min()`). -/
def fltMinPositive : ℚ := 1 / 2 ^ 126

/-- Machine epsilon of `float`, `2^-23` (`std::numeric_limits<float>::epsilon()`). -/
def fltEpsilon : ℚ := 1 / 2 ^ 23

/-- Modelled external function: `juce::approximatelyEqual(float, float)` with
its default tolerances (JUCE is a third-party dependency, not part of this
repository): true when the absolute difference is within `fltMinPositive`
or within the relative tolerance `fltEpsilon` scaled by the larger magnitude. -/
def approximatelyEqual (a b : ℚ) : Bool :=
  decide (|a - b| ≤ fltMinPositive) || decide (|a - b| ≤ fltEpsilon * Max.max |a| |b|)

/-- Embedding of `DraggableNumber::limitValue` (lines 484-495): if both
bounds are zero the value is returned unclamped (zero-range escape hatch),
otherwise it is clamped below at `min` when `isMinLimited` and then above
at `max` when `isMaxLimited`. -/
def limitValue (st : State) (valueToLimit : ℚ) : ℚ :=
  if st.min = 0 ∧ st.max = 0 then valueToLimit
  else
    let v1 := if st.isMinLimited then Max.max valueToLimit st.min else valueToLimit
    if st.isMaxLimited then Min.min v1 st.max else v1

/-- Embedding of `DraggableNumber::setValue` (lines 165-177): clear
`wasReset`, clamp through `limitValue`, and when the clamped value is not
`approximatelyEqual` to `lastValue`, store it, update the label text and fire
`onValueChange`.  The second component is `some x` exactly when
`onValueChange(x)` fires. -/
def setValue (newValue : ℚ) (st : State) : State × Option ℚ :=
  let st1 : State := { st with wasReset := false }
  let nv := limitValue st1 newValue
  if approximatelyEqual st1.lastValue nv then (st1, none)
  else ({ st1 with lastValue := nv }, some nv)

/-- Embedding of `DraggableNumber::getValue`: returns the stored value. -/
def getValue (st : State) : ℚ := st.lastValue

/-- Embedding of `DraggableNumber::setMinimum`. -/
def setMinimum (minimum : ℚ) (st : State) : State :=
  { st with isMinLimited := true, min := minimum }

/-- Embedding of `DraggableNumber::setMaximum`. -/
def setMaximum (maximum : ℚ) (st : State) : State :=
  { st with isMaxLimited := true, max := maximum }

/-- Helper: `approximatelyEqual` is reflexive. -/
theorem approximatelyEqual_refl (a : ℚ) : approximatelyEqual a a = true := by
  simp only [approximatelyEqual, sub_self, abs_zero, Bool.or_eq_true, decide_eq_true_eq]
  left
  norm_num [fltMinPositive]

end DraggableNumber

/-! ### Claim C8 theorems -/

/-- Claim C8 counterexample: with stored value `1`, no limits and
`min = max = 0`, calling `setValue (1 + 2^-24)` leaves the stored value at
`1` (the new value is `approximatelyEqual` to the old one), so the stored
value is not the new value `v` as the claim states. -/
theorem C8_counterexample :
    DraggableNumber.getValue
        (DraggableNumber.setValue (1 + 1 / 2 ^ 24)
          { lastValue := 1, min := 0, max := 0, isMinLimited := false,
            isMaxLimited := false, wasReset := false }).1 = 1
    ∧ ((1 : ℚ) + 1 / 2 ^ 24) ≠ 1 := by
  have habs : |(1 : ℚ) - (1 + 1 / 2 ^ 24)| = 1 / 2 ^ 24 := by
    rw [show (1 : ℚ) - (1 + 1 / 2 ^ 24) = -(1 / 2 ^ 24) by ring, abs_neg,
      abs_of_nonneg (by norm_num : (0 : ℚ) ≤ 1 / 2 ^ 24)]
  have hA : DraggableNumber.approximatelyEqual 1 (1 + 1 / 2 ^ 24) = true := by
    unfold DraggableNumber.approximatelyEqual
    have h2 : |(1 : ℚ) - (1 + 1 / 2 ^ 24)|
        ≤ DraggableNumber.fltEpsilon * Max.max |(1 : ℚ)| |(1 : ℚ) + 1 / 2 ^ 24| := by
      rw [habs, abs_one, abs_of_nonneg (by norm_num : (0 : ℚ) ≤ 1 + 1 / 2 ^ 24),
        max_eq_right (by norm_num : (1 : ℚ) ≤ 1 + 1 / 2 ^ 24)]
      rw [DraggableNumber.fltEpsilon]
      norm_num
    rw [decide_eq_true h2, Bool.or_true]
  have hlim : DraggableNumber.limitValue
      { lastValue := 1, min := 0, max := 0, isMinLimited := false,
        isMaxLimited := false, wasReset := false } (1 + 1 / 2 ^ 24) = 1 + 1 / 2 ^ 24 := by
    unfold DraggableNumber.limitValue
    rw [if_pos ⟨rfl, rfl⟩]
  constructor
  · show DraggableNumber.getValue
        (DraggableNumber.setValue (1 + 1 / 2 ^ 24)
          { lastValue := 1, min := 0, max := 0, isMinLimited := false,
            isMaxLimited := false, wasReset := false }).1 = 1
    simp only [DraggableNumber.setValue]
    rw [hlim, hA]
    rfl
  · norm_num

/-- Claim C8 (amended): `setValue v` clamps `v` through `limitValue` — with
the zero-range escape hatch returning `v` unclamped when `min = max = 0`
regardless of the limit flags, otherwise clamping below at `min` when
`isMinLimited` and then above at `max` when `isMaxLimited` — and stores the
clamped value *unless* it is `approximatelyEqual` (JUCE default float
tolerance) to the previously stored value, in which case the stored value is
left unchanged; `getValue()` returns the stored value, and `onValueChange`
fires exactly when the clamped value is not approximately equal to the
previous stored value, hence only when the stored value actually changes. -/
theorem C8_setValue_spec (st : DraggableNumber.State) (v : ℚ) :
    ((st.min = 0 ∧ st.max = 0) → DraggableNumber.limitValue st v = v)
    ∧ (¬(st.min = 0 ∧ st.max = 0) → st.isMinLimited = true → st.isMaxLimited = false →
        DraggableNumber.limitValue st v = Max.max v st.min)
    ∧ (¬(st.min = 0 ∧ st.max = 0) → st.isMinLimited = false → st.isMaxLimited = true →
        DraggableNumber.limitValue st v = Min.min v st.max)
    ∧ (¬(st.min = 0 ∧ st.max = 0) → st.isMinLimited = true → st.isMaxLimited = true →
        DraggableNumber.limitValue st v = Min.min (Max.max v st.min) st.max)
    ∧ (¬(st.min = 0 ∧ st.max = 0) → st.isMinLimited = false → st.isMaxLimited = false →
        DraggableNumber.limitValue st v = v)
    ∧ (DraggableNumber.setValue v st).1.lastValue
        = (if DraggableNumber.approximatelyEqual st.lastValue (DraggableNumber.limitValue st v)
            then st.lastValue else DraggableNumber.limitValue st v)
    ∧ DraggableNumber.getValue (DraggableNumber.setValue v st).1
        = (DraggableNumber.setValue v st).1.lastValue
    ∧ (DraggableNumber.setValue v st).2
        = (if DraggableNumber.approximatelyEqual st.lastValue (DraggableNumber.limitValue st v)
            then none else some (DraggableNumber.limitValue st v))
    ∧ ((DraggableNumber.setValue v st).2 ≠ none →
        (DraggableNumber.setValue v st).1.lastValue ≠ st.lastValue)
    ∧ (DraggableNumber.setValue v st).1.min = st.min
    ∧ (DraggableNumber.setValue v st).1.max = st.max
    ∧ (DraggableNumber.setValue v st).1.wasReset = false := by
  have hlim : DraggableNumber.limitValue { st with wasReset := false } v
      = DraggableNumber.limitValue st v := rfl
  have hlv : ({ st with wasReset := false } : DraggableNumber.State).lastValue
      = st.lastValue := rfl
  refine ⟨?_, ?_, ?_, ?_, ?_, ?_, rfl, ?_, ?_, ?_, ?_, ?_⟩
  · intro h
    simp [DraggableNumber.limitValue, h]
  · intro h hmin hmax
    simp [DraggableNumber.limitValue, h, hmin, hmax]
  · intro h hmin hmax
    simp [DraggableNumber.limitValue, h, hmin, hmax]
  · intro h hmin hmax
    simp [DraggableNumber.limitValue, h, hmin, hmax]
  · intro h hmin hmax
    simp [DraggableNumber.limitValue, h, hmin, hmax]
  · simp only [DraggableNumber.setValue, hlim, hlv]
    by_cases hA : DraggableNumber.approximatelyEqual st.lastValue (DraggableNumber.limitValue st v)
    · simp [hA]
    · simp [hA]
  · simp only [DraggableNumber.setValue, hlim, hlv]
    by_cases hA : DraggableNumber.approximatelyEqual st.lastValue (DraggableNumber.limitValue st v)
    · simp [hA]
    · simp [hA]
  · intro hfire
    simp only [DraggableNumber.setValue, hlim, hlv] at hfire ⊢
    by_cases hA : DraggableNumber.approximatelyEqual st.lastValue (DraggableNumber.limitValue st v)
    · simp [hA] at hfire
    · simp only [hA, Bool.false_eq_true, if_false]
      intro heq
      have : DraggableNumber.approximatelyEqual st.lastValue (DraggableNumber.limitValue st v)
          = true := by
        rw [show DraggableNumber.limitValue st v = st.lastValue from heq]
        exact DraggableNumber.approximatelyEqual_refl st.lastValue
      exact hA this
  · simp only [DraggableNumber.setValue, hlim, hlv]
    by_cases hA : DraggableNumber.approximatelyEqual st.lastValue (DraggableNumber.limitValue st v)
    · simp [hA]
    · simp [hA]
  · simp only [DraggableNumber.setValue, hlim, hlv]
    by_cases hA : DraggableNumber.approximatelyEqual st.lastValue (DraggableNumber.limitValue st v)
    · simp [hA]
    · simp [hA]
  · simp only [DraggableNumber.setValue, hlim, hlv]
    by_cases hA : DraggableNumber.approximatelyEqual st.lastValue (DraggableNumber.limitValue st v)
    · simp [hA]
    · simp [hA]

/-- Claim C8 witness: concrete instance of the amended claim for the state
`⟨5, 0, 10, true, true, false⟩` and new value `20`: the limits are active
(`min = 0`, `max = 10` is not the zero-range escape hatch since `max ≠ 0`),
so the stored value becomes `10` and `onValueChange` fires with `10`. -/
theorem C8_witness :
    ¬(((0 : ℚ) = 0) ∧ ((10 : ℚ) = 0))
    ∧ DraggableNumber.getValue
        (DraggableNumber.setValue 20
          { lastValue := 5, min := 0, max := 10, isMinLimited := true,
            isMaxLimited := true, wasReset := false }).1 = 10
    ∧ (DraggableNumber.setValue 20
          { lastValue := 5, min := 0, max := 10, isMinLimited := true,
            isMaxLimited := true, wasReset := false }).2 = some 10 := by
  have h := C8_setValue_spec
    { lastValue := 5, min := 0, max := 10, isMinLimited := true,
      isMaxLimited := true, wasReset := false } 20
  have hlim : DraggableNumber.limitValue
      { lastValue := 5, min := 0, max := 10, isMinLimited := true,
        isMaxLimited := true, wasReset := false } 20 = 10 := by
    have h4 := h.2.2.2.1
    rw [h4 (by norm_num) rfl rfl]
    rw [max_eq_left (by norm_num : (0 : ℚ) ≤ 20),
      min_eq_right (by norm_num : (10 : ℚ) ≤ 20)]
  have hB : DraggableNumber.approximatelyEqual 5 10 = false := by
    unfold DraggableNumber.approximatelyEqual
    have habs : |(5 : ℚ) - 10| = 5 := by
      rw [show (5 : ℚ) - 10 = -5 by ring, abs_neg,
        abs_of_nonneg (by norm_num : (0 : ℚ) ≤ 5)]
    have h1 : ¬(|(5 : ℚ) - 10| ≤ DraggableNumber.fltMinPositive) := by
      rw [habs, DraggableNumber.fltMinPositive]; norm_num
    have h2 : ¬(|(5 : ℚ) - 10| ≤ DraggableNumber.fltEpsilon * Max.max |(5 : ℚ)| |(10 : ℚ)|) := by
      rw [habs, abs_of_nonneg (by norm_num : (0 : ℚ) ≤ 5),
        abs_of_nonneg (by norm_num : (0 : ℚ) ≤ 10),
        max_eq_right (by norm_num : (5 : ℚ) ≤ 10), DraggableNumber.fltEpsilon]
      norm_num
    rw [decide_eq_false h1, decide_eq_false h2, Bool.or_self]
  refine ⟨by norm_num, ?_, ?_⟩
  · rw [h.2.2.2.2.2.2.1, h.2.2.2.2.2.1, hlim, hB]
    rfl
  · rw [h.2.2.2.2.2.2.2.1, hlim, hB]
    rfl

/-! ### Weak-reference guarded accessors (NumberObject, ToggleObject) -/

/-- Pure Data `t_float` values idealised exactly, with the two infinities
used as accessor defaults (`-std::numeric_limits<float>::infinity()` and
`+std::numeric_limits<float>::infinity()`). -/
inductive PdFloat where
  | negInf : PdFloat
  | fin : ℚ → PdFloat
  | posInf : PdFloat
deriving DecidableEq

/-- Fields of libpd's `t_my_numbox` read by the `NumberObject` accessors. -/
structure TMyNumbox where
  x_val : PdFloat
  x_min : PdFloat
  x_max : PdFloat

/-- Field of libpd's `t_toggle` read by `ToggleObject::getValue`. -/
structure TToggle where
  x_on : PdFloat

namespace NumberObject

/-- Embedding of `NumberObject::getValue`: `ptr.get<t_my_numbox>()` is the
weak-reference lock, modelled from the spec as an `Option` (`none` when the
underlying object was deleted; `pd::WeakReference` itself is not under
`src/`).  The accessor threads an opaque world state `w` to make explicit
that it mutates nothing in either branch. -/
def getValue {σ : Type} (ptr : Option TMyNumbox) (w : σ) : PdFloat × σ :=
  match ptr with
  | some numbox => (numbox.x_val, w)
  | none => (.fin 0, w)

/-- Embedding of `NumberObject::getMinimum`: `x_min` when the weak reference
locks, `-infinity` otherwise. -/
def getMinimum {σ : Type} (ptr : Option TMyNumbox) (w : σ) : PdFloat × σ :=
  match ptr with
  | some numbox => (numbox.x_min, w)
  | none => (.negInf, w)

/-- Embedding of `NumberObject::getMaximum`: `x_max` when the weak reference
locks, `+infinity` otherwise. -/
def getMaximum {σ : Type} (ptr : Option TMyNumbox) (w : σ) : PdFloat × σ :=
  match ptr with
  | some numbox => (numbox.x_max, w)
  | none => (.posInf, w)

end NumberObject

namespace ToggleObject

/-- Embedding of `ToggleObject::getValue`: `x_on` when the weak reference
locks, `0.0f` otherwise. -/
def getValue {σ : Type} (ptr : Option TToggle) (w : σ) : PdFloat × σ :=
  match ptr with
  | some toggle => (toggle.x_on, w)
  | none => (.fin 0, w)

end ToggleObject

/-! ### Claim C3 theorem -/

/-- Claim C3: when the weak reference fails to lock (the libpd object was
deleted), each accessor performs no dereference, leaves all state unchanged
(the world component is returned untouched) and returns its fixed default:
`0.0f` for `NumberObject::getValue` and `ToggleObject::getValue`,
`-infinity` for `getMinimum`, `+infinity` for `getMaximum`; when the lock
succeeds the accessors return the corresponding libpd field, also without
modifying state. -/
theorem C3_weakref_accessor_defaults {σ : Type} (w : σ) :
    NumberObject.getValue (σ := σ) none w = (.fin 0, w)
    ∧ NumberObject.getMinimum (σ := σ) none w = (.negInf, w)
    ∧ NumberObject.getMaximum (σ := σ) none w = (.posInf, w)
    ∧ ToggleObject.getValue (σ := σ) none w = (.fin 0, w)
    ∧ (∀ nb : TMyNumbox, NumberObject.getValue (some nb) w = (nb.x_val, w)
        ∧ NumberObject.getMinimum (some nb) w = (nb.x_min, w)
        ∧ NumberObject.getMaximum (some nb) w = (nb.x_max, w))
    ∧ (∀ tg : TToggle, ToggleObject.getValue (some tg) w = (tg.x_on, w)) :=
  ⟨rfl, rfl, rfl, rfl, fun _ => ⟨rfl, rfl, rfl⟩, fun _ => rfl⟩

/-! ### ConnectionPathUpdater (Source/Connection.h) -/

namespace ConnectionPathUpdater

/-- State of a `ConnectionPathUpdater` together with the patch data it will
eventually write to.  `C` stands for `Connection*` handles, `S` for
`t_symbol*` path states, `P` for the underlying patch data structure.
`connectionUpdateQueue` models the `moodycamel::ReaderWriterQueue` contents
in FIFO order; `timerRunning`/`timerIntervalMs` model the JUCE `Timer`. -/
structure UpdaterState (C S P : Type) where
  connectionUpdateQueue : List (C × S)
  timerRunning : Bool
  timerIntervalMs : ℕ
  patch : P

/-- Embedding of `ConnectionPathUpdater::pushPathState(connection, newPathState)`
(`Source/Connection.h`, lines 255-259):
`connectionUpdateQueue.enqueue({ connection, newPathState }); startTimer(50);` -/
def pushPathState {C S P : Type} (connection : C) (newPathState : S)
    (st : UpdaterState C S P) : UpdaterState C S P :=
  { st with
    connectionUpdateQueue := st.connectionUpdateQueue ++ [(connection, newPathState)],
    timerRunning := true,
    timerIntervalMs := 50 }

/-- Modelled from the spec: `ConnectionPathUpdater::timerCallback` is declared
in `Source/Connection.h` but its body (in `Connection.cpp`) is not under
`src/`; per the spec it is the debounced drain that "serializes geometry
changes back into the underlying patch data structure": it dequeues every
queued (connection, path-state) pair in FIFO order, applies each to the
patch, and stops the timer. -/
def timerCallback {C S P : Type} (applyPathState : C × S → P → P)
    (st : UpdaterState C S P) : UpdaterState C S P :=
  { connectionUpdateQueue := [],
    timerRunning := false,
    timerIntervalMs := st.timerIntervalMs,
    patch := st.connectionUpdateQueue.foldl (fun p cs => applyPathState cs p) st.patch }

end ConnectionPathUpdater

/-! ### Claim C2 theorem -/

/-- Claim C2: `pushPathState(connection, newPathState)` only enqueues the
pair onto `connectionUpdateQueue` and starts the 50 ms timer — the patch
(and everything else outside queue and timer) is untouched; the patch is
changed only later, by the timer callback, which drains the queue in FIFO
order into the patch and leaves the queue empty. -/
theorem C2_pushPathState_defers {C S P : Type}
    (applyPathState : C × S → P → P) (connection : C) (newPathState : S)
    (st : ConnectionPathUpdater.UpdaterState C S P) :
    (ConnectionPathUpdater.pushPathState connection newPathState st).connectionUpdateQueue
        = st.connectionUpdateQueue ++ [(connection, newPathState)]
    ∧ (ConnectionPathUpdater.pushPathState connection newPathState st).timerRunning = true
    ∧ (ConnectionPathUpdater.pushPathState connection newPathState st).timerIntervalMs = 50
    ∧ (ConnectionPathUpdater.pushPathState connection newPathState st).patch = st.patch
    ∧ (ConnectionPathUpdater.timerCallback applyPathState
            (ConnectionPathUpdater.pushPathState connection newPathState st)).patch
        = (st.connectionUpdateQueue ++ [(connection, newPathState)]).foldl
            (fun p cs => applyPathState cs p) st.patch
    ∧ (ConnectionPathUpdater.timerCallback applyPathState
            (ConnectionPathUpdater.pushPathState connection newPathState st)).connectionUpdateQueue
        = [] :=
  ⟨rfl, rfl, rfl, rfl, rfl, rfl⟩

/-! ### Connection::findLatticePaths (declared in Source/Connection.h) -/

namespace Connection

/-- Modelled from the spec: one lattice step of the search, moving a
coordinate towards the destination by exactly one increment
(`coord1 > coord2 ? coord1 -= incr : coord1 += incr`). -/
def stepToward (p e incr : ℚ) : ℚ :=
  if p < e then p + incr else p - incr

/-- Modelled from the spec: the candidate paths explored by
`Connection::findLatticePaths` (declared in `Source/Connection.h` line 106;
its body, in `Connection.cpp`, is not under `src/`).  Per the spec it is "a
lattice-search over a small bounded grid": from the current lattice point the
search either stops (destination reached) or recursively steps one increment
towards the destination along the x axis and along the y axis, each step
contributing the current point to the path.  `fuel` bounds the recursion
depth as the C++ recursion is bounded by the grid size. -/
def candPaths (incX incY : ℚ) (e : ℚ × ℚ) : ℕ → ℚ × ℚ → List (List (ℚ × ℚ))
  | 0, pos => if pos = e then [[pos]] else []
  | fuel + 1, pos =>
      if pos = e then [[pos]]
      else
        (if pos.1 ≠ e.1 then
          (candPaths incX incY e fuel (stepToward pos.1 e.1 incX, pos.2)).map (pos :: ·)
        else [])
        ++ (if pos.2 ≠ e.2 then
          (candPaths incX incY e fuel (pos.1, stepToward pos.2 e.2 incY)).map (pos :: ·)
        else [])

/-- Modelled from the spec: the cost used to compare candidate paths — the
number of direction changes (bends) along the path. -/
def bends : List (ℚ × ℚ) → ℕ
  | a :: b :: c :: rest =>
      (if (decide (a.2 = b.2)) != (decide (b.2 = c.2)) then 1 else 0) + bends (b :: c :: rest)
  | _ => 0

/-- Modelled from the spec: one comparison of the running best path against
the next explored candidate — a strictly better candidate replaces the
running best, ties keep the earlier one. -/
def selectStep (best : Option (List (ℚ × ℚ))) (p : List (ℚ × ℚ)) :
    Option (List (ℚ × ℚ)) :=
  match best with
  | none => some p
  | some b => if bends p < bends b then some p else some b

/-- Modelled from the spec: deterministic selection of the best explored
path — the first candidate in exploration order attaining the least number
of bends ("straightforward tie-breaking"). -/
def selectBest (paths : List (List (ℚ × ℚ))) : Option (List (ℚ × ℚ)) :=
  paths.foldl selectStep none

/-- Modelled from the spec: `Connection::findLatticePaths(bestPath, pathStack,
start, end, increment)` explores the lattice candidates and stores the best
one in `bestPath`; the returned `Option` is the final `bestPath` (`none` when
no candidate was found within the bound). -/
def findLatticePaths (fuel : ℕ) (startPt endPt increment : ℚ × ℚ) :
    Option (List (ℚ × ℚ)) :=
  selectBest (candPaths increment.1 increment.2 endPt fuel startPt)

/-- Membership of a point in the lattice spanned by the increment through the
destination point. -/
def onLattice (e : ℚ × ℚ) (incX incY : ℚ) (q : ℚ × ℚ) : Prop :=
  (∃ i : ℤ, e.1 - q.1 = i * incX) ∧ (∃ j : ℤ, e.2 - q.2 = j * incY)

/-- Membership of a point in the axis-aligned bounding box of two points
(the "small bounded grid between start and end"). -/
def inBox (a b q : ℚ × ℚ) : Prop :=
  Min.min a.1 b.1 ≤ q.1 ∧ q.1 ≤ Max.max a.1 b.1
  ∧ Min.min a.2 b.2 ≤ q.2 ∧ q.2 ≤ Max.max a.2 b.2

/-- One path segment: an axis-aligned move of exactly one increment. -/
def stepRel (incX incY : ℚ) (a b : ℚ × ℚ) : Prop :=
  ((b.1 - a.1 = incX ∨ b.1 - a.1 = -incX) ∧ b.2 = a.2)
  ∨ (b.1 = a.1 ∧ (b.2 - a.2 = incY ∨ b.2 - a.2 = -incY))

end Connection

/-- Helper: a single `stepToward` keeps the coordinate on the lattice, inside
the interval spanned by the current coordinate and the destination, moves by
exactly one increment, and shrinks the interval. -/
theorem stepToward_spec (p e incr : ℚ) (hinc : 0 < incr) (m : ℤ)
    (hm : e - p = m * incr) (hne : p ≠ e) :
    (∃ m' : ℤ, e - Connection.stepToward p e incr = m' * incr)
    ∧ (Min.min p e ≤ Connection.stepToward p e incr
        ∧ Connection.stepToward p e incr ≤ Max.max p e)
    ∧ (Connection.stepToward p e incr - p = incr
        ∨ Connection.stepToward p e incr - p = -incr)
    ∧ (∀ q : ℚ, Min.min (Connection.stepToward p e incr) e ≤ q →
        q ≤ Max.max (Connection.stepToward p e incr) e →
        Min.min p e ≤ q ∧ q ≤ Max.max p e) := by
  rcases lt_or_gt_of_ne hne with hlt | hgt
  · have hstep : Connection.stepToward p e incr = p + incr := by
      unfold Connection.stepToward
      rw [if_pos hlt]
    have hmpos : (0 : ℚ) < (m : ℚ) * incr := by rw [← hm]; linarith
    have hm0 : (0 : ℚ) < (m : ℚ) := by
      by_contra h
      push_neg at h
      nlinarith
    have hm1 : (1 : ℚ) ≤ (m : ℚ) := by
      have hmInt : (0 : ℤ) < m := by exact_mod_cast hm0
      have h1 : (1 : ℤ) ≤ m := by omega
      exact_mod_cast h1
    have hle : p + incr ≤ e := by nlinarith
    have hminpe : Min.min p e = p := min_eq_left hlt.le
    have hmaxpe : Max.max p e = e := max_eq_right hlt.le
    refine ⟨⟨m - 1, ?_⟩, ?_, ?_, ?_⟩
    · rw [hstep]
      push_cast
      linarith [hm]
    · rw [hstep, hminpe, hmaxpe]
      constructor <;> linarith
    · left; rw [hstep]; ring
    · intro q hq1 hq2
      rw [hstep] at hq1 hq2
      rw [min_eq_left hle] at hq1
      rw [max_eq_right hle] at hq2
      rw [hminpe, hmaxpe]
      constructor <;> linarith
  · have hstep : Connection.stepToward p e incr = p - incr := by
      unfold Connection.stepToward
      rw [if_neg (not_lt.mpr hgt.le)]
    have hmneg : (m : ℚ) * incr < 0 := by rw [← hm]; linarith
    have hm0 : (m : ℚ) < 0 := by
      by_contra h
      push_neg at h
      nlinarith
    have hm1 : (m : ℚ) ≤ -1 := by
      have hmInt : m < (0 : ℤ) := by exact_mod_cast hm0
      have h1 : m ≤ (-1 : ℤ) := by omega
      exact_mod_cast h1
    have hle : e ≤ p - incr := by nlinarith
    have hminpe : Min.min p e = e := min_eq_right hgt.le
    have hmaxpe : Max.max p e = p := max_eq_left hgt.le
    refine ⟨⟨m + 1, ?_⟩, ?_, ?_, ?_⟩
    · rw [hstep]
      push_cast
      linarith [hm]
    · rw [hstep, hminpe, hmaxpe]
      constructor <;> linarith
    · right; rw [hstep]; ring
    · intro q hq1 hq2
      rw [hstep] at hq1 hq2
      rw [min_eq_right hle] at hq1
      rw [max_eq_left hle] at hq2
      rw [hminpe, hmaxpe]
      constructor <;> linarith

/-- Helper: destination point lies on its own lattice. -/
theorem onLattice_self (e : ℚ × ℚ) (incX incY : ℚ) :
    Connection.onLattice e incX incY e :=
  ⟨⟨0, by simp⟩, ⟨0, by simp⟩⟩

/-- Helper: a box corner lies inside the box. -/
theorem inBox_self_left (a b : ℚ × ℚ) : Connection.inBox a b a :=
  ⟨min_le_left _ _, le_max_left _ _, min_le_left _ _, le_max_left _ _⟩

/-- Helper: every path explored by `candPaths` starts at the current
position, makes only single-increment axis-aligned steps, and visits only
lattice points inside the bounding box of the current position and the
destination. -/
theorem candPaths_invariant (incX incY : ℚ) (e : ℚ × ℚ)
    (hx : 0 < incX) (hy : 0 < incY) :
    ∀ (fuel : ℕ) (pos : ℚ × ℚ),
      (∃ m : ℤ, e.1 - pos.1 = m * incX) →
      (∃ n : ℤ, e.2 - pos.2 = n * incY) →
      ∀ path ∈ Connection.candPaths incX incY e fuel pos,
        path.head? = some pos
        ∧ List.Chain' (Connection.stepRel incX incY) path
        ∧ ∀ q ∈ path, Connection.onLattice e incX incY q ∧ Connection.inBox pos e q := by
  intro fuel
  induction fuel with
  | zero =>
      intro pos hmx hmy path hpath
      rw [Connection.candPaths] at hpath
      by_cases hpos : pos = e
      · rw [if_pos hpos] at hpath
        simp only [List.mem_singleton] at hpath
        subst hpath
        refine ⟨rfl, List.chain'_singleton _, ?_⟩
        intro q hq
        simp only [List.mem_singleton] at hq
        subst hq
        exact ⟨hpos ▸ onLattice_self e incX incY, inBox_self_left _ _⟩
      · rw [if_neg hpos] at hpath
        cases hpath
  | succ fuel ih =>
      intro pos hmx hmy path hpath
      rw [Connection.candPaths] at hpath
      by_cases hpos : pos = e
      · rw [if_pos hpos] at hpath
        simp only [List.mem_singleton] at hpath
        subst hpath
        refine ⟨rfl, List.chain'_singleton _, ?_⟩
        intro q hq
        simp only [List.mem_singleton] at hq
        subst hq
        exact ⟨hpos ▸ onLattice_self e incX incY, inBox_self_left _ _⟩
      · rw [if_neg hpos] at hpath
        rw [List.mem_append] at hpath
        obtain ⟨m, hm⟩ := hmx
        obtain ⟨n, hn⟩ := hmy
        rcases hpath with hpath | hpath
        · by_cases hxne : pos.1 ≠ e.1
          · rw [if_pos hxne] at hpath
            rw [List.mem_map] at hpath
            obtain ⟨rest, hrest, hcons⟩ := hpath
            obtain ⟨hlat', hbounds', hstep', hshrink'⟩ :=
              stepToward_spec pos.1 e.1 incX hx m hm hxne
            have hIH := ih (Connection.stepToward pos.1 e.1 incX, pos.2)
              hlat' ⟨n, hn⟩ rest hrest
            obtain ⟨hhead, hchain, hmem⟩ := hIH
            subst hcons
            refine ⟨rfl, ?_, ?_⟩
            · rw [List.chain'_cons']
              refine ⟨?_, hchain⟩
              intro y hy
              rw [hhead] at hy
              simp only [Option.mem_def, Option.some.injEq] at hy
              subst hy
              left
              exact ⟨hstep', rfl⟩
            · intro q hq
              rcases List.mem_cons.mp hq with hq | hq
              · subst hq
                exact ⟨⟨⟨m, hm⟩, ⟨n, hn⟩⟩, inBox_self_left _ _⟩
              · obtain ⟨hlatq, hboxq⟩ := hmem q hq
                obtain ⟨b1, b2, b3, b4⟩ := hboxq
                obtain ⟨c1, c2⟩ := hshrink' q.1 b1 b2
                exact ⟨hlatq, c1, c2, b3, b4⟩
          · rw [if_neg hxne] at hpath
            cases hpath
        · by_cases hyne : pos.2 ≠ e.2
          · rw [if_pos hyne] at hpath
            rw [List.mem_map] at hpath
            obtain ⟨rest, hrest, hcons⟩ := hpath
            obtain ⟨hlat', hbounds', hstep', hshrink'⟩ :=
              stepToward_spec pos.2 e.2 incY hy n hn hyne
            have hIH := ih (pos.1, Connection.stepToward pos.2 e.2 incY)
              ⟨m, hm⟩ hlat' rest hrest
            obtain ⟨hhead, hchain, hmem⟩ := hIH
            subst hcons
            refine ⟨rfl, ?_, ?_⟩
            · rw [List.chain'_cons']
              refine ⟨?_, hchain⟩
              intro y hy
              rw [hhead] at hy
              simp only [Option.mem_def, Option.some.injEq] at hy
              subst hy
              right
              exact ⟨rfl, hstep'⟩
            · intro q hq
              rcases List.mem_cons.mp hq with hq | hq
              · subst hq
                exact ⟨⟨⟨m, hm⟩, ⟨n, hn⟩⟩, inBox_self_left _ _⟩
              · obtain ⟨hlatq, hboxq⟩ := hmem q hq
                obtain ⟨b1, b2, b3, b4⟩ := hboxq
                obtain ⟨c1, c2⟩ := hshrink' q.2 b3 b4
                exact ⟨hlatq, b1, b2, c1, c2⟩
          · rw [if_neg hyne] at hpath
            cases hpath

/-- Helper: folding `selectStep` from a running best yields a path that is
the running best or one of the candidates, never worse than the running
best, and no worse than any candidate. -/
theorem selectStep_foldl_spec :
    ∀ (paths : List (List (ℚ × ℚ))) (b : List (ℚ × ℚ)),
      ∃ r, paths.foldl Connection.selectStep (some b) = some r
        ∧ (r = b ∨ r ∈ paths)
        ∧ Connection.bends r ≤ Connection.bends b
        ∧ ∀ p ∈ paths, Connection.bends r ≤ Connection.bends p := by
  intro paths
  induction paths with
  | nil =>
      intro b
      exact ⟨b, rfl, Or.inl rfl, le_refl _, fun p hp => absurd hp (List.not_mem_nil p)⟩
  | cons p ps ih =>
      intro b
      by_cases hc : Connection.bends p < Connection.bends b
      · obtain ⟨r, hfold, hmem, hle, hall⟩ := ih p
        refine ⟨r, ?_, ?_, ?_, ?_⟩
        · rw [List.foldl_cons]
          rw [show Connection.selectStep (some b) p = some p by
            simp [Connection.selectStep, hc]]
          exact hfold
        · rcases hmem with h | h
          · exact Or.inr (h ▸ List.mem_cons_self p ps)
          · exact Or.inr (List.mem_cons_of_mem p h)
        · exact le_trans hle hc.le
        · intro q hq
          rcases List.mem_cons.mp hq with h | h
          · exact h ▸ hle
          · exact hall q h
      · obtain ⟨r, hfold, hmem, hle, hall⟩ := ih b
        refine ⟨r, ?_, ?_, ?_, ?_⟩
        · rw [List.foldl_cons]
          rw [show Connection.selectStep (some b) p = some b by
            simp [Connection.selectStep, hc]]
          exact hfold
        · rcases hmem with h | h
          · exact Or.inl h
          · exact Or.inr (List.mem_cons_of_mem p h)
        · exact hle
        · intro q hq
          rcases List.mem_cons.mp hq with h | h
          · exact h ▸ le_trans hle (not_lt.mp hc)
          · exact hall q h

/-- Helper: `selectBest` returns a member of the candidate list attaining
the minimal number of bends. -/
theorem selectBest_spec (paths : List (List (ℚ × ℚ))) (r : List (ℚ × ℚ))
    (h : Connection.selectBest paths = some r) :
    r ∈ paths ∧ ∀ p ∈ paths, Connection.bends r ≤ Connection.bends p := by
  cases paths with
  | nil => cases h
  | cons p ps =>
      have h' : ps.foldl Connection.selectStep (some p) = some r := h
      obtain ⟨r', hfold, hmem, hle, hall⟩ := selectStep_foldl_spec ps p
      rw [hfold] at h'
      obtain rfl : r' = r := Option.some.inj h'
      refine ⟨?_, ?_⟩
      · rcases hmem with hmem | hmem
        · exact hmem ▸ List.mem_cons_self p ps
        · exact List.mem_cons_of_mem p hmem
      · intro q hq
        rcases List.mem_cons.mp hq with hq | hq
        · exact hq ▸ hle
        · exact hall q hq

/-! ### Claim C5 theorem -/

/-- Claim C5: `findLatticePaths` is a lattice search.  Provided the increment
components are positive and the destination is reachable from the start on
the increment lattice, every candidate path the search explores makes only
axis-aligned steps of exactly one increment between lattice points and stays
inside the bounding box spanned by start and end; and whatever `bestPath` the
search selects is one of the explored candidates, minimal in the number of
bends, chosen by the deterministic first-minimum tie-breaking rule. -/
theorem C5_findLatticePaths_spec (fuel : ℕ) (startPt endPt increment : ℚ × ℚ)
    (hx : 0 < increment.1) (hy : 0 < increment.2)
    (hmx : ∃ m : ℤ, endPt.1 - startPt.1 = m * increment.1)
    (hmy : ∃ n : ℤ, endPt.2 - startPt.2 = n * increment.2) :
    (∀ path ∈ Connection.candPaths increment.1 increment.2 endPt fuel startPt,
        List.Chain' (Connection.stepRel increment.1 increment.2) path
        ∧ ∀ q ∈ path, Connection.onLattice endPt increment.1 increment.2 q
            ∧ Connection.inBox startPt endPt q)
    ∧ (∀ best, Connection.findLatticePaths fuel startPt endPt increment = some best →
        best ∈ Connection.candPaths increment.1 increment.2 endPt fuel startPt
        ∧ ∀ p ∈ Connection.candPaths increment.1 increment.2 endPt fuel startPt,
            Connection.bends best ≤ Connection.bends p) := by
  constructor
  · intro path hpath
    obtain ⟨_, hchain, hmem⟩ :=
      candPaths_invariant increment.1 increment.2 endPt hx hy fuel startPt hmx hmy path hpath
    exact ⟨hchain, hmem⟩
  · intro best hbest
    exact selectBest_spec _ best hbest

/-- Claim C5 witness: concrete instance with `start = (0, 0)`,
`end = (2, 1)`, `increment = (1, 1)` and recursion bound `4`, discharging
the positivity and lattice-reachability hypotheses. -/
theorem C5_witness :
    ((0 : ℚ) < 1 ∧ (∃ m : ℤ, (2 : ℚ) - 0 = m * 1) ∧ (∃ n : ℤ, (1 : ℚ) - 0 = n * 1))
    ∧ ((∀ path ∈ Connection.candPaths 1 1 (2, 1) 4 (0, 0),
        List.Chain' (Connection.stepRel 1 1) path
        ∧ ∀ q ∈ path, Connection.onLattice (2, 1) 1 1 q
            ∧ Connection.inBox (0, 0) (2, 1) q)
    ∧ (∀ best, Connection.findLatticePaths 4 (0, 0) (2, 1) (1, 1) = some best →
        best ∈ Connection.candPaths 1 1 (2, 1) 4 (0, 0)
        ∧ ∀ p ∈ Connection.candPaths 1 1 (2, 1) 4 (0, 0),
            Connection.bends best ≤ Connection.bends p)) :=
  ⟨⟨by norm_num, ⟨2, by norm_num⟩, ⟨1, by norm_num⟩⟩,
    C5_findLatticePaths_spec 4 (0, 0) (2, 1) (1, 1) (by norm_num) (by norm_num)
      ⟨2, by norm_num⟩ ⟨1, by norm_num⟩⟩

/-! ### Decimal printing: injectivity of Nat.repr -/

/-- Helper: `Nat.digitChar` is injective below 16. -/
theorem digitChar_inj_lt :
    ∀ a < 16, ∀ b < 16, Nat.digitChar a = Nat.digitChar b → a = b := by decide

/-- Helper: `Nat.toDigitsCore` for base 10 computes the reversed decimal
digits (as characters) prepended to the accumulator. -/
theorem toDigitsCore_eq_digits :
    ∀ (fuel n : ℕ) (acc : List Char), 0 < n → n < fuel →
      Nat.toDigitsCore 10 fuel n acc
        = ((Nat.digits 10 n).map Nat.digitChar).reverse ++ acc := by
  intro fuel
  induction fuel with
  | zero => intro n acc h0 hf; exact absurd hf (Nat.not_lt_zero n)
  | succ fuel ih =>
      intro n acc h0 hf
      rw [Nat.toDigitsCore]
      by_cases hq : n / 10 = 0
      · rw [if_pos hq]
        rw [Nat.digits_def' (by norm_num : 1 < 10) h0, hq, Nat.digits_zero]
        simp
      · rw [if_neg hq]
        have hlt : n / 10 < fuel :=
          lt_of_lt_of_le (Nat.div_lt_self h0 (by norm_num)) (by omega)
        rw [ih (n / 10) (Nat.digitChar (n % 10) :: acc) (Nat.pos_of_ne_zero hq) hlt]
        rw [Nat.digits_def' (by norm_num : 1 < 10) h0]
        simp [List.append_assoc]

/-- Helper: `Nat.toDigits 10` of a positive number is the reversed list of
decimal digit characters. -/
theorem toDigits_eq_digits (n : ℕ) (h : 0 < n) :
    Nat.toDigits 10 n = ((Nat.digits 10 n).map Nat.digitChar).reverse := by
  rw [Nat.toDigits, toDigitsCore_eq_digits (n + 1) n [] h (Nat.lt_succ_self n),
    List.append_nil]

/-- Helper: mapping `digitChar` over lists of values below 16 is injective. -/
theorem map_digitChar_inj :
    ∀ (l1 l2 : List ℕ), (∀ x ∈ l1, x < 16) → (∀ x ∈ l2, x < 16) →
      l1.map Nat.digitChar = l2.map Nat.digitChar → l1 = l2 := by
  intro l1
  induction l1 with
  | nil =>
      intro l2 _ _ h
      cases l2 with
      | nil => rfl
      | cons b t => simp at h
  | cons a t ih =>
      intro l2 h1 h2 h
      cases l2 with
      | nil => simp at h
      | cons b t2 =>
          simp only [List.map_cons, List.cons.injEq] at h
          have hab : a = b :=
            digitChar_inj_lt a (h1 a (List.mem_cons_self a t))
              b (h2 b (List.mem_cons_self b t2)) h.1
          rw [hab, ih t2 (fun x hx => h1 x (List.mem_cons_of_mem a hx))
            (fun x hx => h2 x (List.mem_cons_of_mem b hx)) h.2]

/-- Helper: the digits of a positive number cannot all map to the single
character list of another number's digits when their digit lists differ;
combined with `ofDigits_digits`, `Nat.repr` (decimal printing) is injective. -/
theorem natRepr_injective : Function.Injective Nat.repr := by
  intro m n h
  have hdig : Nat.toDigits 10 m = Nat.toDigits 10 n := by
    have hdata := congrArg String.data h
    simpa [Nat.repr, List.asString] using hdata
  have digits_bound : ∀ k : ℕ, ∀ x ∈ Nat.digits 10 k, x < 16 :=
    fun k x hx => lt_trans (Nat.digits_lt_base (by norm_num) hx) (by norm_num)
  have zero_case : ∀ k : ℕ, 0 < k → Nat.toDigits 10 0 = Nat.toDigits 10 k → False := by
    intro k hk hzk
    rw [toDigits_eq_digits k hk] at hzk
    have h0 : Nat.toDigits 10 0 = ['0'] := rfl
    rw [h0] at hzk
    have hmap : (Nat.digits 10 k).map Nat.digitChar = ['0'] := by
      have := congrArg List.reverse hzk
      simpa using this.symm
    have hd : Nat.digits 10 k = [0] := by
      have h016 : (0 : ℕ) < 16 := by norm_num
      have := map_digitChar_inj (Nat.digits 10 k) [0] (digits_bound k)
        (by intro x hx; simp at hx; omega) (by simpa using hmap)
      exact this
    have : k = 0 := by
      have hofd := Nat.ofDigits_digits 10 k
      rw [hd] at hofd
      simpa [Nat.ofDigits] using hofd.symm
    omega
  rcases Nat.eq_zero_or_pos m with hm | hm
  · rcases Nat.eq_zero_or_pos n with hn | hn
    · rw [hm, hn]
    · exact absurd (hm ▸ hdig) (fun hc => zero_case n hn hc)
  · rcases Nat.eq_zero_or_pos n with hn | hn
    · exact absurd (hn ▸ hdig.symm) (fun hc => zero_case m hm hc)
    · rw [toDigits_eq_digits m hm, toDigits_eq_digits n hn] at hdig
      have hmap : (Nat.digits 10 m).map Nat.digitChar
          = (Nat.digits 10 n).map Nat.digitChar := by
        have := congrArg List.reverse hdig
        simpa using this
      have hdigits : Nat.digits 10 m = Nat.digits 10 n :=
        map_digitChar_inj _ _ (digits_bound m) (digits_bound n) hmap
      calc m = Nat.ofDigits 10 (Nat.digits 10 m) := (Nat.ofDigits_digits 10 m).symm
        _ = Nat.ofDigits 10 (Nat.digits 10 n) := by rw [hdigits]
        _ = n := Nat.ofDigits_digits 10 n

/-! ### PlugDataParameter (Source/Utility/PluginParameter.h) -/

namespace PlugDataParameter

/-- The `PlugDataParameter::Mode` enum (`Float = 1, Integer, Logarithmic,
Exponential`). -/
inductive Mode where
  | float
  | integer
  | logarithmic
  | exponential
deriving DecidableEq

/-- The numeric value of a `Mode` as stored in the XML `mode` attribute
(`static_cast<int>(param->mode)`). -/
def Mode.toInt : Mode → ℤ
  | .float => 1
  | .integer => 2
  | .logarithmic => 3
  | .exponential => 4

/-- The `static_cast<Mode>(...)` applied to the XML `mode` attribute on load;
values `2`, `3`, `4` select `Integer`, `Logarithmic`, `Exponential`, and the
enum value `Float = 1` otherwise (out-of-range casts never arise from state
saved by `saveStateInformation`). -/
def modeOfInt (i : ℤ) : Mode :=
  if i = 2 then .integer
  else if i = 3 then .logarithmic
  else if i = 4 then .exponential
  else .float

/-- State of a `PlugDataParameter` relevant to save/load: the name
(`parameterName`, a 128-byte `StackArray<char, 128>` in C++, hence at most
127 characters — modelled as a `String`), `index`, `enabled`, the
normalisable-range fields, the `mode` and the unscaled `value`.  `float` is
idealised as `ℝ` since the skew conversions use `exp`/`log`/`pow`. -/
structure Param where
  parameterName : String
  index : ℤ
  enabled : Bool
  rangeStart : ℝ
  rangeEnd : ℝ
  rangeInterval : ℝ
  rangeSkew : ℝ
  mode : Mode
  value : ℝ

/-- JUCE `jlimit(0, 1, v)` as used by `NormalisableRange::clampTo0To1`. -/
noncomputable def clampTo0To1 (v : ℝ) : ℝ :=
  if v < 0 then 0 else if 1 < v then 1 else v

/-- Modelled external function (JUCE `NormalisableRange::convertTo0to1` with
`symmetricSkew = false`): clamp the proportion of the range and apply the
skew exponent. -/
noncomputable def convertTo0to1 (start stop skew v : ℝ) : ℝ :=
  let proportion := clampTo0To1 ((v - start) / (stop - start))
  if skew = 1 then proportion else proportion ^ skew

/-- Modelled external function (JUCE `NormalisableRange::convertFrom0to1`
with `symmetricSkew = false`): clamp to `[0, 1]`, invert the skew
(`std::exp(std::log(p) / skew)` for positive `p`), and map affinely onto the
range. -/
noncomputable def convertFrom0to1 (start stop skew p0 : ℝ) : ℝ :=
  let proportion := clampTo0To1 p0
  let proportion :=
    if skew ≠ 1 ∧ 0 < proportion then proportion ^ (1 / skew) else proportion
  start + (stop - start) * proportion

/-- Embedding of `PlugDataParameter::getValue`: the stored value converted to
the normalised 0-1 range. -/
noncomputable def getValue (p : Param) : ℝ :=
  convertTo0to1 p.rangeStart p.rangeEnd p.rangeSkew p.value

/-- Embedding of `PlugDataParameter::setValue`: stores
`range.convertFrom0to1(newValue)` (the asynchronous float send to the audio
thread has no effect on parameter state and is not modelled). -/
noncomputable def setValue (newValue : ℝ) (p : Param) : Param :=
  { p with value := convertFrom0to1 p.rangeStart p.rangeEnd p.rangeSkew newValue }

/-- Embedding of `PlugDataParameter::setRange(min, max)`. -/
def setRange (minimum maximum : ℝ) (p : Param) : Param :=
  { p with rangeStart := minimum, rangeEnd := maximum }

/-- Embedding of `PlugDataParameter::setName` (copies the name into the
128-byte `parameterName` buffer; defined behaviour requires at most 127
characters, under which the copy is exact). -/
def setName (newName : String) (p : Param) : Param :=
  { p with parameterName := newName }

/-- Embedding of `PlugDataParameter::getTitle`. -/
def getTitle (p : Param) : String := p.parameterName

/-- Embedding of `PlugDataParameter::setIndex`. -/
def setIndex (idx : ℤ) (p : Param) : Param := { p with index := idx }

/-- Embedding of `PlugDataParameter::setEnabled`. -/
def setEnabled (shouldBeEnabled : Bool) (p : Param) : Param :=
  { p with enabled := shouldBeEnabled }

/-- The float literal `0.000001f` used for `rangeInterval`, idealised. -/
noncomputable def interval1e6 : ℝ := 1 / 1000000

/-- Embedding of `PlugDataParameter::setMode(newMode, notify = false)`:
assigns the mode and the mode's skew/interval; `Integer` additionally floors
the range ends and re-stores `std::floor(getValue())` (`notifyDAW` is only
reached with `notify = true` and does not change parameter state). -/
noncomputable def setMode (newMode : Mode) (p : Param) : Param :=
  match newMode with
  | .logarithmic =>
      { p with mode := .logarithmic, rangeSkew := 4, rangeInterval := interval1e6 }
  | .exponential =>
      { p with mode := .exponential, rangeSkew := 1 / 4, rangeInterval := interval1e6 }
  | .float =>
      { p with mode := .float, rangeSkew := 1, rangeInterval := interval1e6 }
  | .integer =>
      let p1 : Param :=
        { p with
          mode := .integer
          rangeSkew := 1
          rangeStart := (⌊p.rangeStart⌋ : ℝ)
          rangeEnd := (⌊p.rangeEnd⌋ : ℝ)
          rangeInterval := 1 }
      setValue (⌊getValue p1⌋ : ℝ) p1

/-- One `<PARAM>` child of the state XML.  JUCE `XmlElement` attributes are
stored as text; `setAttribute`/`getDoubleAttribute` round-trip doubles
exactly (JUCE serialises doubles losslessly), so attribute values are kept
typed.  `Option` models `hasAttribute`. -/
structure ParamXml where
  xmlId : String
  nameAttr : Option String
  minAttr : Option ℝ
  maxAttr : Option ℝ
  enabledAttr : Option ℤ
  valueAttr : Option ℝ
  indexAttr : Option ℤ
  modeAttr : Option ℤ

/-- The id attribute `String("param") + String(i)` of the i-th child. -/
def paramId (i : ℕ) : String := "param" ++ Nat.repr i

/-- The `<PARAM>` child written for parameter `i` by `saveStateInformation`. -/
noncomputable def mkParamChild (i : ℕ) (p : Param) : ParamXml :=
  { xmlId := paramId i,
    nameAttr := some (getTitle p),
    minAttr := some p.rangeStart,
    maxAttr := some p.rangeEnd,
    enabledAttr := some (if p.enabled then 1 else 0),
    valueAttr := some (getValue p),
    indexAttr := some p.index,
    modeAttr := some p.mode.toInt }

/-- The loop `for (int i = 1; i < parameters.size(); i++)` of
`saveStateInformation`, emitting one child per `PlugDataParameter`. -/
noncomputable def saveChildren : List Param → ℕ → List ParamXml
  | [], _ => []
  | p :: ps, i => mkParamChild i p :: saveChildren ps (i + 1)

/-- Embedding of `PlugDataParameter::saveStateInformation` (lines 214-240):
a `volume` child holding `parameters[0]->getValue()` followed by one child
per `PlugDataParameter` (`parameters[1..]`, ids `param1`, `param2`, ...).
`volumeValue` is the index-0 volume parameter's normalised value. -/
noncomputable def saveStateInformation (volumeValue : ℝ) (params : List Param) :
    List ParamXml :=
  { xmlId := "volume", nameAttr := none, minAttr := none, maxAttr := none,
    enabledAttr := none, valueAttr := some volumeValue, indexAttr := none,
    modeAttr := none }
  :: saveChildren params 1

/-- JUCE `XmlElement::getChildByAttribute("id", v)`: first child whose `id`
attribute equals `v`. -/
def getChildByAttributeId (xml : List ParamXml) (v : String) : Option ParamXml :=
  xml.find? (fun c => decide (c.xmlId = v))

/-- One iteration of the load loop of `loadStateInformation` (lines 252-295):
look up the child `paramN`, read the attributes (with the documented legacy
defaults when absent), then
`setRange; setName; setIndex; setMode(mode, false); setValue; setEnabled`. -/
noncomputable def loadOne (xml : List ParamXml) (i : ℕ) (p : Param) : Param :=
  match getChildByAttributeId xml (paramId i) with
  | none => p
  | some c =>
      let navalue := c.valueAttr.getD (getValue p)
      let name := c.nameAttr.getD (paramId i)
      let minV := c.minAttr.getD 0
      let maxV := c.maxAttr.getD 1
      let enabledV := (c.enabledAttr.map (fun e => decide (e ≠ 0))).getD true
      let indexV := c.indexAttr.getD (i : ℤ)
      let modeV := (c.modeAttr.map modeOfInt).getD .float
      setEnabled enabledV
        (setValue navalue (setMode modeV (setIndex indexV (setName name (setRange minV maxV p)))))

/-- The loop `for (int i = 1; i < parameters.size(); i++)` of
`loadStateInformation`. -/
noncomputable def loadParams (xml : List ParamXml) : List Param → ℕ → List Param
  | [], _ => []
  | p :: ps, i => loadOne xml i p :: loadParams xml ps (i + 1)

/-- Embedding of `PlugDataParameter::loadStateInformation` (lines 242-296):
restore the volume parameter from the `volume` child (if present), then the
`PlugDataParameter`s from the `paramN` children. -/
noncomputable def loadStateInformation (xml : List ParamXml) (volumeValue : ℝ)
    (params : List Param) : ℝ × List Param :=
  let vol :=
    match getChildByAttributeId xml "volume" with
    | some c => c.valueAttr.getD volumeValue
    | none => volumeValue
  (vol, loadParams xml params 1)

/-- The range start after a save/load round trip: flooring applies exactly
when the mode is `Integer` (via `setMode` on load). -/
noncomputable def effStart (p : Param) : ℝ :=
  if p.mode = .integer then (⌊p.rangeStart⌋ : ℝ) else p.rangeStart

/-- The range end after a save/load round trip. -/
noncomputable def effEnd (p : Param) : ℝ :=
  if p.mode = .integer then (⌊p.rangeEnd⌋ : ℝ) else p.rangeEnd

/-- The skew that `setMode` installs for each mode. -/
noncomputable def canonicalSkew : Mode → ℝ
  | .logarithmic => 4
  | .exponential => 1 / 4
  | _ => 1

/-- A default `Param` for `List.getD`. -/
noncomputable def defaultParam : Param :=
  { parameterName := "", index := 0, enabled := false, rangeStart := 0,
    rangeEnd := 1, rangeInterval := 0, rangeSkew := 1, mode := .float, value := 0 }

end PlugDataParameter

/-- Helper: `clampTo0To1` fixes values already in `[0, 1]`. -/
theorem clampTo0To1_of_mem (v : ℝ) (h0 : 0 ≤ v) (h1 : v ≤ 1) :
    PlugDataParameter.clampTo0To1 v = v := by
  unfold PlugDataParameter.clampTo0To1
  rw [if_neg (not_lt.mpr h0), if_neg (not_lt.mpr h1)]

/-- Helper: `clampTo0To1` lands in `[0, 1]`. -/
theorem clampTo0To1_mem (v : ℝ) :
    0 ≤ PlugDataParameter.clampTo0To1 v ∧ PlugDataParameter.clampTo0To1 v ≤ 1 := by
  unfold PlugDataParameter.clampTo0To1
  split_ifs with h1 h2
  · exact ⟨le_refl 0, by norm_num⟩
  · exact ⟨by norm_num, le_refl 1⟩
  · exact ⟨not_lt.mp h1, not_lt.mp h2⟩

/-- Helper: `getValue` is normalised into `[0, 1]` whenever the skew is
positive (it always is: `setMode` only installs `1`, `4` or `1/4`). -/
theorem getValue_mem (p : PlugDataParameter.Param) (hskew : 0 < p.rangeSkew) :
    0 ≤ PlugDataParameter.getValue p ∧ PlugDataParameter.getValue p ≤ 1 := by
  unfold PlugDataParameter.getValue PlugDataParameter.convertTo0to1
  obtain ⟨hq0, hq1⟩ := clampTo0To1_mem ((p.value - p.rangeStart) / (p.rangeEnd - p.rangeStart))
  by_cases h : p.rangeSkew = 1
  · rw [if_pos h]
    exact ⟨hq0, hq1⟩
  · rw [if_neg h]
    exact ⟨Real.rpow_nonneg hq0 _, Real.rpow_le_one hq0 hq1 hskew.le⟩

/-- Helper: on a nondegenerate range with positive skew, `convertTo0to1`
inverts `convertFrom0to1` on `[0, 1]` (in exact real arithmetic). -/
theorem convert_roundtrip (start stop skew p : ℝ) (hr : start < stop)
    (hskew : 0 < skew) (hp0 : 0 ≤ p) (hp1 : p ≤ 1) :
    PlugDataParameter.convertTo0to1 start stop skew
      (PlugDataParameter.convertFrom0to1 start stop skew p) = p := by
  have hne : stop - start ≠ 0 := sub_ne_zero.mpr hr.ne'
  simp only [PlugDataParameter.convertFrom0to1, PlugDataParameter.convertTo0to1]
  rw [clampTo0To1_of_mem p hp0 hp1]
  set q := if skew ≠ 1 ∧ 0 < p then p ^ (1 / skew) else p with hq
  have hq0 : 0 ≤ q := by
    rw [hq]
    split_ifs with h
    · exact Real.rpow_nonneg hp0 _
    · exact hp0
  have hq1 : q ≤ 1 := by
    rw [hq]
    split_ifs with h
    · exact Real.rpow_le_one hp0 hp1 (by positivity)
    · exact hp1
  have harg : (start + (stop - start) * q - start) / (stop - start) = q := by
    field_simp
  rw [harg, clampTo0To1_of_mem q hq0 hq1]
  by_cases hs : skew = 1
  · rw [if_pos hs, hq, if_neg (fun h => h.1 hs)]
  · rw [if_neg hs]
    by_cases hp : 0 < p
    · have hqv : q = p ^ (1 / skew) := by rw [hq, if_pos ⟨hs, hp⟩]
      rw [hqv, ← Real.rpow_mul hp0, one_div_mul_cancel (ne_of_gt hskew), Real.rpow_one]
    · have hp' : p = 0 := le_antisymm (not_lt.mp hp) hp0
      have hqv : q = p := by rw [hq, if_neg (fun h => hp h.2)]
      rw [hqv, hp', Real.zero_rpow (ne_of_gt hskew)]

/-- Helper: distinct indices give distinct `paramN` ids. -/
theorem paramId_injective {i j : ℕ} (hij : i ≠ j) :
    PlugDataParameter.paramId i ≠ PlugDataParameter.paramId j := by
  intro h
  have hd := congrArg String.data h
  simp only [PlugDataParameter.paramId, String.data_append] at hd
  have hrepr : (Nat.repr i).data = (Nat.repr j).data := List.append_cancel_left hd
  exact hij (natRepr_injective (String.ext hrepr))

/-- Helper: the `volume` child id never collides with a `paramN` id. -/
theorem volume_ne_paramId (i : ℕ) : ("volume" : String) ≠ PlugDataParameter.paramId i := by
  intro h
  have hd := congrArg String.data h
  simp only [PlugDataParameter.paramId, String.data_append] at hd
  simp at hd

/-- Helper: looking up `paramId (i + k)` among the children saved starting at
index `i` finds exactly the `k`-th one. -/
theorem find_saveChildren :
    ∀ (ps : List PlugDataParameter.Param) (i k : ℕ), k < ps.length →
      (PlugDataParameter.saveChildren ps i).find?
          (fun c => decide (c.xmlId = PlugDataParameter.paramId (i + k)))
        = some (PlugDataParameter.mkParamChild (i + k)
            (ps.getD k PlugDataParameter.defaultParam)) := by
  intro ps
  induction ps with
  | nil => intro i k hk; exact absurd hk (by simp)
  | cons p ps ih =>
      intro i k hk
      cases k with
      | zero =>
          rw [PlugDataParameter.saveChildren]
          rw [List.find?_cons_of_pos _ (by simp [PlugDataParameter.mkParamChild])]
          simp [PlugDataParameter.mkParamChild]
      | succ k =>
          rw [PlugDataParameter.saveChildren]
          rw [List.find?_cons_of_neg _ ?hne]
          case hne =>
            simp only [PlugDataParameter.mkParamChild, decide_eq_true_eq]
            exact fun hc => paramId_injective (by omega) hc
          have hk' : k < ps.length := by simpa using Nat.lt_of_succ_lt_succ hk
          have heq : i + (k + 1) = (i + 1) + k := by omega
          rw [heq]
          rw [ih (i + 1) k hk']
          simp

namespace PlugDataParameter

/-- Helper: the skews installed by `setMode` are positive. -/
theorem canonicalSkew_pos (m : Mode) : 0 < canonicalSkew m := by
  cases m <;> norm_num [canonicalSkew]

/-- Helper: the mode enum round-trips through its integer encoding. -/
theorem modeOfInt_toInt (m : Mode) : modeOfInt (Mode.toInt m) = m := by
  cases m <;> rfl

/-- Helper: the `enabled` flag round-trips through its integer encoding. -/
theorem enabledOfInt_roundtrip (b : Bool) :
    (decide ((if b then (1 : ℤ) else 0) ≠ 0)) = b := by
  cases b <;> simp

/-- Helper: `loadOne` on the child saved for the same parameter reduces to
the setter chain on the saved attribute values. -/
theorem loadOne_eq_of_found (xml : List ParamXml) (i : ℕ) (p : Param)
    (hfind : getChildByAttributeId xml (paramId i) = some (mkParamChild i p)) :
    loadOne xml i p
      = setEnabled p.enabled (setValue (getValue p) (setMode p.mode p)) := by
  unfold loadOne
  rw [hfind]
  simp only [mkParamChild, getTitle, Option.getD_some, Option.map_some']
  rw [modeOfInt_toInt, enabledOfInt_roundtrip]
  rfl

end PlugDataParameter

namespace PlugDataParameter

/-- Helper: loading the child saved for a parameter restores its name,
index, enabled flag and mode exactly, restores the range up to the `Integer`
flooring performed by `setMode`, and restores the normalised value
(`getValue`) exactly — provided the skew is positive (class invariant) and
the effective loaded range is nondegenerate. -/
theorem loadOne_roundtrip (xml : List ParamXml) (i : ℕ) (p : Param)
    (hfind : getChildByAttributeId xml (paramId i) = some (mkParamChild i p))
    (hskewpos : 0 < p.rangeSkew)
    (hrange : effStart p < effEnd p) :
    (loadOne xml i p).parameterName = p.parameterName
    ∧ (loadOne xml i p).index = p.index
    ∧ (loadOne xml i p).enabled = p.enabled
    ∧ (loadOne xml i p).mode = p.mode
    ∧ (loadOne xml i p).rangeStart = effStart p
    ∧ (loadOne xml i p).rangeEnd = effEnd p
    ∧ getValue (loadOne xml i p) = getValue p := by
  obtain ⟨hgv0, hgv1⟩ := getValue_mem p hskewpos
  rw [loadOne_eq_of_found xml i p hfind]
  cases hmode : p.mode with
  | float =>
      rw [effStart, if_neg (by rw [hmode]; intro hc; cases hc)] at hrange ⊢
      rw [effEnd, if_neg (by rw [hmode]; intro hc; cases hc)] at hrange ⊢
      refine ⟨rfl, rfl, rfl, rfl, rfl, rfl, ?_⟩
      show convertTo0to1 p.rangeStart p.rangeEnd 1
          (convertFrom0to1 p.rangeStart p.rangeEnd 1 (getValue p)) = getValue p
      exact convert_roundtrip _ _ _ _ hrange one_pos hgv0 hgv1
  | logarithmic =>
      rw [effStart, if_neg (by rw [hmode]; intro hc; cases hc)] at hrange ⊢
      rw [effEnd, if_neg (by rw [hmode]; intro hc; cases hc)] at hrange ⊢
      refine ⟨rfl, rfl, rfl, rfl, rfl, rfl, ?_⟩
      show convertTo0to1 p.rangeStart p.rangeEnd 4
          (convertFrom0to1 p.rangeStart p.rangeEnd 4 (getValue p)) = getValue p
      exact convert_roundtrip _ _ _ _ hrange (by norm_num) hgv0 hgv1
  | exponential =>
      rw [effStart, if_neg (by rw [hmode]; intro hc; cases hc)] at hrange ⊢
      rw [effEnd, if_neg (by rw [hmode]; intro hc; cases hc)] at hrange ⊢
      refine ⟨rfl, rfl, rfl, rfl, rfl, rfl, ?_⟩
      show convertTo0to1 p.rangeStart p.rangeEnd (1 / 4)
          (convertFrom0to1 p.rangeStart p.rangeEnd (1 / 4) (getValue p)) = getValue p
      exact convert_roundtrip _ _ _ _ hrange (by norm_num) hgv0 hgv1
  | integer =>
      rw [effStart, if_pos (by rw [hmode])] at hrange ⊢
      rw [effEnd, if_pos (by rw [hmode])] at hrange ⊢
      refine ⟨rfl, rfl, rfl, rfl, rfl, rfl, ?_⟩
      show convertTo0to1 (⌊p.rangeStart⌋ : ℝ) (⌊p.rangeEnd⌋ : ℝ) 1
          (convertFrom0to1 (⌊p.rangeStart⌋ : ℝ) (⌊p.rangeEnd⌋ : ℝ) 1 (getValue p))
          = getValue p
      exact convert_roundtrip _ _ _ _ hrange one_pos hgv0 hgv1

end PlugDataParameter

namespace PlugDataParameter

/-- Helper: looking up `paramId (k+1)` in the saved state finds the child of
the `k`-th parameter. -/
theorem find_save (volumeValue : ℝ) (ps : List Param) (k : ℕ) (hk : k < ps.length) :
    getChildByAttributeId (saveStateInformation volumeValue ps) (paramId (k + 1))
      = some (mkParamChild (k + 1) (ps.getD k defaultParam)) := by
  unfold saveStateInformation getChildByAttributeId
  rw [List.find?_cons_of_neg _ (by
    simp only [decide_eq_true_eq]
    exact volume_ne_paramId (k + 1))]
  have h := find_saveChildren ps 1 k hk
  rw [show (1 : ℕ) + k = k + 1 from by omega] at h
  exact h

/-- Helper: looking up `volume` in the saved state finds the volume child. -/
theorem find_volume (volumeValue : ℝ) (ps : List Param) :
    getChildByAttributeId (saveStateInformation volumeValue ps) "volume"
      = some { xmlId := "volume", nameAttr := none, minAttr := none, maxAttr := none,
               enabledAttr := none, valueAttr := some volumeValue, indexAttr := none,
               modeAttr := none } := by
  unfold saveStateInformation getChildByAttributeId
  rw [List.find?_cons_of_pos _ (by simp)]

/-- Helper: `loadParams` preserves the number of parameters. -/
theorem loadParams_length (xml : List ParamXml) :
    ∀ (ps : List Param) (i : ℕ), (loadParams xml ps i).length = ps.length := by
  intro ps
  induction ps with
  | nil => intro i; rfl
  | cons p ps ih => intro i; simp [loadParams, ih]

/-- Helper: the `k`-th loaded parameter is `loadOne` of the `k`-th input. -/
theorem loadParams_getD (xml : List ParamXml) :
    ∀ (ps : List Param) (i k : ℕ), k < ps.length →
      (loadParams xml ps i).getD k defaultParam
        = loadOne xml (i + k) (ps.getD k defaultParam) := by
  intro ps
  induction ps with
  | nil => intro i k hk; simp at hk
  | cons p ps ih =>
      intro i k hk
      cases k with
      | zero => rfl
      | succ k =>
          have hk' : k < ps.length := by simpa using Nat.lt_of_succ_lt_succ hk
          show (loadParams xml ps (i + 1)).getD k defaultParam = _
          rw [ih (i + 1) k hk', show (i + 1) + k = i + (k + 1) from by omega]
          rfl

end PlugDataParameter

/-! ### Claim C1 theorems -/

/-- Claim C1 (amended): saving parameter state to XML and loading it back
with the same parameter array restores, for each `PlugDataParameter`, its
title, index, enabled flag, mode and normalised value (`getValue()`)
exactly, and restores the range start and end up to the flooring that
`setMode(Integer)` applies on load (an exact restore whenever the mode is
not `Integer` or the range ends are already whole numbers); the index-0
volume parameter's value is restored exactly.  Hypotheses: each parameter's
skew is positive (the class only ever installs `1`, `4` or `1/4`) and each
parameter's effective loaded range is nondegenerate (real-arithmetic
idealisation of the float range mapping). -/
theorem C1_saveLoad_roundtrip (volumeValue : ℝ)
    (params : List PlugDataParameter.Param)
    (hskew : ∀ p ∈ params, 0 < p.rangeSkew)
    (hrange : ∀ p ∈ params,
        PlugDataParameter.effStart p < PlugDataParameter.effEnd p) :
    (PlugDataParameter.loadStateInformation
        (PlugDataParameter.saveStateInformation volumeValue params)
        volumeValue params).1 = volumeValue
    ∧ (PlugDataParameter.loadStateInformation
        (PlugDataParameter.saveStateInformation volumeValue params)
        volumeValue params).2.length = params.length
    ∧ ∀ k, k < params.length →
        ((PlugDataParameter.loadStateInformation
            (PlugDataParameter.saveStateInformation volumeValue params)
            volumeValue params).2.getD k PlugDataParameter.defaultParam).parameterName
          = (params.getD k PlugDataParameter.defaultParam).parameterName
        ∧ ((PlugDataParameter.loadStateInformation
            (PlugDataParameter.saveStateInformation volumeValue params)
            volumeValue params).2.getD k PlugDataParameter.defaultParam).index
          = (params.getD k PlugDataParameter.defaultParam).index
        ∧ ((PlugDataParameter.loadStateInformation
            (PlugDataParameter.saveStateInformation volumeValue params)
            volumeValue params).2.getD k PlugDataParameter.defaultParam).enabled
          = (params.getD k PlugDataParameter.defaultParam).enabled
        ∧ ((PlugDataParameter.loadStateInformation
            (PlugDataParameter.saveStateInformation volumeValue params)
            volumeValue params).2.getD k PlugDataParameter.defaultParam).mode
          = (params.getD k PlugDataParameter.defaultParam).mode
        ∧ ((PlugDataParameter.loadStateInformation
            (PlugDataParameter.saveStateInformation volumeValue params)
            volumeValue params).2.getD k PlugDataParameter.defaultParam).rangeStart
          = PlugDataParameter.effStart (params.getD k PlugDataParameter.defaultParam)
        ∧ ((PlugDataParameter.loadStateInformation
            (PlugDataParameter.saveStateInformation volumeValue params)
            volumeValue params).2.getD k PlugDataParameter.defaultParam).rangeEnd
          = PlugDataParameter.effEnd (params.getD k PlugDataParameter.defaultParam)
        ∧ PlugDataParameter.getValue
            ((PlugDataParameter.loadStateInformation
              (PlugDataParameter.saveStateInformation volumeValue params)
              volumeValue params).2.getD k PlugDataParameter.defaultParam)
          = PlugDataParameter.getValue (params.getD k PlugDataParameter.defaultParam) := by
  refine ⟨?_, ?_, ?_⟩
  · show (match PlugDataParameter.getChildByAttributeId
        (PlugDataParameter.saveStateInformation volumeValue params) "volume" with
      | some c => c.valueAttr.getD volumeValue
      | none => volumeValue) = volumeValue
    rw [PlugDataParameter.find_volume]
    rfl
  · exact PlugDataParameter.loadParams_length _ params 1
  · intro k hk
    have hmem : params.getD k PlugDataParameter.defaultParam ∈ params := by
      rw [List.getD_eq_getElem?_getD, List.getElem?_eq_getElem hk]
      exact List.getElem_mem hk
    have h2 : (PlugDataParameter.loadStateInformation
          (PlugDataParameter.saveStateInformation volumeValue params)
          volumeValue params).2.getD k PlugDataParameter.defaultParam
        = PlugDataParameter.loadOne
            (PlugDataParameter.saveStateInformation volumeValue params) (k + 1)
            (params.getD k PlugDataParameter.defaultParam) := by
      show (PlugDataParameter.loadParams
          (PlugDataParameter.saveStateInformation volumeValue params)
          params 1).getD k PlugDataParameter.defaultParam = _
      rw [PlugDataParameter.loadParams_getD _ params 1 k hk,
        show (1 : ℕ) + k = k + 1 from by omega]
    rw [h2]
    exact PlugDataParameter.loadOne_roundtrip
      (PlugDataParameter.saveStateInformation volumeValue params) (k + 1)
      (params.getD k PlugDataParameter.defaultParam)
      (PlugDataParameter.find_save volumeValue params k hk)
      (hskew _ hmem) (hrange _ hmem)

/-- A reachable `PlugDataParameter` state: `Integer` mode with a fractional
range (`setRange(0.5, 2.5)` called after `setMode(Integer)`), skew `1` and
interval `1` as `setMode(Integer)` installs. -/
noncomputable def pIntC1 : PlugDataParameter.Param :=
  { parameterName := "x"
    index := 1
    enabled := true
    rangeStart := 1 / 2
    rangeEnd := 5 / 2
    rangeInterval := 1
    rangeSkew := 1
    mode := .integer
    value := 1 }

/-- Claim C1 counterexample: for the parameter array `[volume, pIntC1]` with
`pIntC1` in `Integer` mode and range `[0.5, 2.5]`, saving and loading does
not restore the range start: `loadStateInformation` runs
`setMode(Integer, false)` which floors the loaded range, so the restored
range start is `0`, not the saved `0.5`. -/
theorem C1_counterexample :
    ((PlugDataParameter.loadStateInformation
        (PlugDataParameter.saveStateInformation 1 [pIntC1]) 1 [pIntC1]).2.getD 0
        PlugDataParameter.defaultParam).rangeStart = 0
    ∧ pIntC1.rangeStart = 1 / 2
    ∧ (0 : ℝ) ≠ 1 / 2 := by
  refine ⟨?_, rfl, by norm_num⟩
  have h2 : (PlugDataParameter.loadStateInformation
        (PlugDataParameter.saveStateInformation 1 [pIntC1]) 1 [pIntC1]).2.getD 0
        PlugDataParameter.defaultParam
      = PlugDataParameter.loadOne
          (PlugDataParameter.saveStateInformation 1 [pIntC1]) 1 pIntC1 := rfl
  rw [h2]
  have hfind := PlugDataParameter.find_save 1 [pIntC1] 0 (by norm_num)
  norm_num at hfind
  rw [PlugDataParameter.loadOne_eq_of_found _ 1 pIntC1 hfind]
  show ((⌊pIntC1.rangeStart⌋ : ℤ) : ℝ) = 0
  rw [show pIntC1.rangeStart = (1 / 2 : ℝ) from rfl]
  rw [show ⌊(1 / 2 : ℝ)⌋ = 0 from by
    rw [Int.floor_eq_zero_iff]
    constructor <;> norm_num]
  norm_num

/-- A `Float`-mode parameter with range `[0, 10]` for the witness. -/
noncomputable def pFloatC1 : PlugDataParameter.Param :=
  { parameterName := "freq"
    index := 1
    enabled := true
    rangeStart := 0
    rangeEnd := 10
    rangeInterval := PlugDataParameter.interval1e6
    rangeSkew := 1
    mode := .float
    value := 5 }

/-- Claim C1 witness: concrete instance for the array `[volume = 1/2,
pFloatC1]`, discharging the positivity and nondegeneracy hypotheses. -/
theorem C1_witness :
    (∀ p ∈ [pFloatC1], 0 < p.rangeSkew)
    ∧ (∀ p ∈ [pFloatC1], PlugDataParameter.effStart p < PlugDataParameter.effEnd p)
    ∧ ((PlugDataParameter.loadStateInformation
          (PlugDataParameter.saveStateInformation (1 / 2) [pFloatC1])
          (1 / 2) [pFloatC1]).1 = 1 / 2
      ∧ (PlugDataParameter.loadStateInformation
          (PlugDataParameter.saveStateInformation (1 / 2) [pFloatC1])
          (1 / 2) [pFloatC1]).2.length = [pFloatC1].length
      ∧ ∀ k, k < [pFloatC1].length →
          ((PlugDataParameter.loadStateInformation
              (PlugDataParameter.saveStateInformation (1 / 2) [pFloatC1])
              (1 / 2) [pFloatC1]).2.getD k PlugDataParameter.defaultParam).parameterName
            = ([pFloatC1].getD k PlugDataParameter.defaultParam).parameterName
          ∧ ((PlugDataParameter.loadStateInformation
              (PlugDataParameter.saveStateInformation (1 / 2) [pFloatC1])
              (1 / 2) [pFloatC1]).2.getD k PlugDataParameter.defaultParam).index
            = ([pFloatC1].getD k PlugDataParameter.defaultParam).index
          ∧ ((PlugDataParameter.loadStateInformation
              (PlugDataParameter.saveStateInformation (1 / 2) [pFloatC1])
              (1 / 2) [pFloatC1]).2.getD k PlugDataParameter.defaultParam).enabled
            = ([pFloatC1].getD k PlugDataParameter.defaultParam).enabled
          ∧ ((PlugDataParameter.loadStateInformation
              (PlugDataParameter.saveStateInformation (1 / 2) [pFloatC1])
              (1 / 2) [pFloatC1]).2.getD k PlugDataParameter.defaultParam).mode
            = ([pFloatC1].getD k PlugDataParameter.defaultParam).mode
          ∧ ((PlugDataParameter.loadStateInformation
              (PlugDataParameter.saveStateInformation (1 / 2) [pFloatC1])
              (1 / 2) [pFloatC1]).2.getD k PlugDataParameter.defaultParam).rangeStart
            = PlugDataParameter.effStart ([pFloatC1].getD k PlugDataParameter.defaultParam)
          ∧ ((PlugDataParameter.loadStateInformation
              (PlugDataParameter.saveStateInformation (1 / 2) [pFloatC1])
              (1 / 2) [pFloatC1]).2.getD k PlugDataParameter.defaultParam).rangeEnd
            = PlugDataParameter.effEnd ([pFloatC1].getD k PlugDataParameter.defaultParam)
          ∧ PlugDataParameter.getValue
              ((PlugDataParameter.loadStateInformation
                (PlugDataParameter.saveStateInformation (1 / 2) [pFloatC1])
                (1 / 2) [pFloatC1]).2.getD k PlugDataParameter.defaultParam)
            = PlugDataParameter.getValue ([pFloatC1].getD k PlugDataParameter.defaultParam)) := by
  have h1 : ∀ p ∈ [pFloatC1], 0 < p.rangeSkew := by
    intro p hp
    simp only [List.mem_singleton] at hp
    subst hp
    show (0 : ℝ) < (1 : ℝ)
    norm_num
  have h2 : ∀ p ∈ [pFloatC1],
      PlugDataParameter.effStart p < PlugDataParameter.effEnd p := by
    intro p hp
    simp only [List.mem_singleton] at hp
    subst hp
    rw [PlugDataParameter.effStart, PlugDataParameter.effEnd,
      if_neg (by intro hc; cases hc), if_neg (by intro hc; cases hc)]
    show (0 : ℝ) < (10 : ℝ)
    norm_num
  exact ⟨h1, h2, C1_saveLoad_roundtrip (1 / 2) [pFloatC1] h1 h2⟩
